import Mathlib

/-!
Verification model of the crypto wallet tracker
(`wallet_tracker_bot.py`).

Part 1 embeds the address handling of `WalletTracker.__init__`
(lines 69-105): lowercasing, EIP-55 checksum casing
(`Web3.to_checksum_address`), and the per-chain wallet / wallet-name
dictionaries.  The checksum hash is abstracted as a function
`hb : List Char -> Nat -> Bool` giving, for the lowercased 40-character
hex body, whether position `i` is uppercased; every theorem is proved
for an arbitrary such function.

Part 2 embeds `is_valid_transaction` (lines 118-164),
`check_wallet_transactions` (lines 166-218) and one tick of
`start_tracking` (lines 228-234).  RPC calls that can raise are
modelled with `Except Unit`; a raised exception that escapes
`check_wallet_transactions` is the `Bool` flag in its result
(swallowed by the tick, as the loop's `try/except` does).
-/

deriving instance DecidableEq for Except

/-- ASCII uppercase/lowercase pairs: the effect of Python `str.lower`. -/
def upperLowerPairs : List (Char × Char) :=
  List.zip "ABCDEFGHIJKLMNOPQRSTUVWXYZ".data "abcdefghijklmnopqrstuvwxyz".data

/-- Lowercase one character, as Python `str.lower` does on ASCII. -/
def charLower (c : Char) : Char :=
  match upperLowerPairs.find? (fun p => p.1 == c) with
  | some p => p.2
  | none => c

/-- Hex-letter uppercase pairs: the casing applied by EIP-55 checksumming
(only the letters `a`-`f` can be uppercased; digits are unchanged). -/
def lowerUpperHexPairs : List (Char × Char) :=
  List.zip "abcdef".data "ABCDEF".data

/-- Uppercase one lowercase hex letter (identity on anything else). -/
def hexUpper (c : Char) : Char :=
  match lowerUpperHexPairs.find? (fun p => p.1 == c) with
  | some p => p.2
  | none => c

/-- The sixteen lowercase hex digits. -/
def lowerHexDigits : List Char := "0123456789abcdef".data

/-- All hex digits, either case. -/
def hexDigits : List Char := "0123456789abcdefABCDEF".data

/-- Is `c` a hex digit (either case)? -/
def isHexDigitChar (c : Char) : Bool := hexDigits.any (fun d => d == c)

/-- Drop a leading `0x`, as `eth_utils.remove_0x_prefix` does. -/
def remove0x : List Char → List Char
  | '0' :: 'x' :: rest => rest
  | l => l

/-- Structural validity of an address: optional `0x` prefix followed by
exactly 40 hex characters (`eth_utils.is_address`). -/
def isValidAddressChars (l : List Char) : Bool :=
  (remove0x l).length == 40 && (remove0x l).all isHexDigitChar

/-- Apply per-position casing bits to a character list, starting at
index `i`: position `j` is uppercased when `bits j` is true. -/
def applyCase (bits : Nat → Bool) : Nat → List Char → List Char
  | _, [] => []
  | i, c :: cs => (if bits i then hexUpper c else c) :: applyCase bits (i + 1) cs

/-- The checksum-cased form of the lowercased 40-character body `t`:
`0x` followed by `t` with the casing given by the hash bits of `t`. -/
def checksumChars (hb : List Char → Nat → Bool) (t : List Char) : List Char :=
  '0' :: 'x' :: applyCase (hb t) 0 t

/-- `Web3.to_checksum_address`: validate structurally, lowercase, then
apply EIP-55 casing; raises (`Except.error`) on a malformed address. -/
def to_checksum_address (hb : List Char → Nat → Bool) (addr : List Char) :
    Except Unit (List Char) :=
  if isValidAddressChars (addr.map charLower) then
    Except.ok (checksumChars hb (remove0x (addr.map charLower)))
  else Except.error ()

/-- Address normalization as applied at construction
(line 92: `Web3.to_checksum_address(addr.lower())`). -/
def normalizeAddress (hb : List Char → Nat → Bool) (s : String) : Except Unit String :=
  match to_checksum_address hb (s.data.map charLower) with
  | Except.ok l => Except.ok (String.mk l)
  | Except.error e => Except.error e

/-- Python `str.lower` on a whole string. -/
def strLower (s : String) : String := String.mk (s.data.map charLower)

/-- The keys of `self.blockchain_configs` (lines 69-80). -/
def supportedChains : List String := ["ethereum", "base"]

/-- Chain display name from `blockchain_configs[chain]['chain_name']`. -/
def chainDisplayName (c : String) : String :=
  if c = "ethereum" then "Ethereum" else if c = "base" then "Base" else c

/-- The list comprehension of line 91-93: checksum every address,
propagating the first failure (a Python exception aborts the
comprehension). -/
def mapAddresses (hb : List Char → Nat → Bool) : List String → Except Unit (List String)
  | [] => Except.ok []
  | a :: rest =>
    match normalizeAddress hb a with
    | Except.error e => Except.error e
    | Except.ok c =>
      match mapAddresses hb rest with
      | Except.error e => Except.error e
      | Except.ok cs => Except.ok (c :: cs)

/-- Python dict assignment `m[k] = v` on an association list: replace
the existing entry in place, else append. -/
def setEntry {α : Type} : List (String × α) → String → α → List (String × α)
  | [], k, v => [(k, v)]
  | (k1, v1) :: rest, k, v =>
    if k1 = k then (k, v) :: rest else (k1, v1) :: setEntry rest k v

/-- Python dict lookup on an association list. -/
def lookupEntry {α : Type} : List (String × α) → String → Option α
  | [], _ => none
  | (k1, v1) :: rest, k => if k1 = k then some v1 else lookupEntry rest k

/-- The wallet-preparation loop of `__init__` (lines 85-96): skip chains
not in `blockchain_configs`, checksum the addresses of supported chains,
and pair them with `wallet_names.get(chain, [])`. -/
def buildWalletsAux (hb : List Char → Nat → Bool) (nsIn : List (String × List String)) :
    List (String × List String) → List (String × List String) →
    List (String × List String) →
    Except Unit (List (String × List String) × List (String × List String))
  | [], accW, accN => Except.ok (accW, accN)
  | (chain, addrs) :: rest, accW, accN =>
    if supportedChains.contains (strLower chain) then
      match mapAddresses hb addrs with
      | Except.error e => Except.error e
      | Except.ok checked =>
        buildWalletsAux hb nsIn rest
          (setEntry accW (strLower chain) checked)
          (setEntry accN (strLower chain) ((lookupEntry nsIn chain).getD []))
    else
      buildWalletsAux hb nsIn rest accW accN

/-- Construction of `self.wallets` and `self.wallet_names` from the
`wallets` and `wallet_names` dictionaries passed to `__init__`. -/
def buildWallets (hb : List Char → Nat → Bool)
    (ws ns : List (String × List String)) :
    Except Unit (List (String × List String) × List (String × List String)) :=
  buildWalletsAux hb ns ws [] []

/-- A hash-bits function that never uppercases (used for concrete runs). -/
def hbZ : List Char → Nat → Bool := fun _ _ => false

/-- A well-formed all-lowercase address. -/
def addrLowerA : String := "0xaaaaaaaaaaaaaaaaaaaaaaaaaaaaaaaaaaaaaaaa"

/-- The same address in uppercase. -/
def addrUpperA : String := "0xAAAAAAAAAAAAAAAAAAAAAAAAAAAAAAAAAAAAAAAA"

/-- A transaction as delivered by `get_block(..., full_transactions=True)`:
`hash` is the hex form of `tx['hash']` (`none` models a `None` hash),
`sender` is `tx['from']`, `toAddr` is `tx['to']` (`none` = contract
creation), `value` is the raw wei amount. -/
structure Tx where
  hash : Option (List Char)
  sender : String
  toAddr : Option String
  value : Nat
deriving DecidableEq

/-- Outcome of `w3.eth.get_transaction_receipt`: the call raises, returns
a falsy receipt, or returns a receipt with a status field. -/
inductive ReceiptResult where
  | fetchError
  | noReceipt
  | found (status : Nat)
deriving DecidableEq

/-- A block: its ordered transaction list. -/
structure Block where
  transactions : List Tx
deriving DecidableEq

/-- The per-chain RPC surface used by the scan; `Except.error` models a
raised exception. -/
structure ChainRpc where
  blockNumber : Except Unit Nat
  getBlock : Nat → Except Unit Block
  getReceipt : List Char → ReceiptResult

/-- Python `x in list` membership test. -/
def memAddr (ws : List String) (a : String) : Bool := ws.any (fun x => x == a)

/-- The match test of lines 185-186: sender tracked, or recipient
present and tracked. -/
def matchesTx (ws : List String) (tx : Tx) : Bool :=
  memAddr ws tx.sender ||
    (match tx.toAddr with
     | some t => memAddr ws t
     | none => false)

/-- `WalletTracker.is_valid_transaction` (lines 118-164): reject a
missing hash or a hex hash of length other than 66; fetch the receipt,
rejecting only when the fetch succeeds and the status is not 1; a
receipt-fetch exception is caught and the transaction accepted. -/
def is_valid_transaction (rpc : ChainRpc) (tx : Tx) : Bool :=
  match tx.hash with
  | none => false
  | some h =>
    if h.length == 66 then
      match rpc.getReceipt h with
      | ReceiptResult.fetchError => true
      | ReceiptResult.noReceipt => true
      | ReceiptResult.found s => s == 1
    else false

/-- A dispatched alert, carrying the fields interpolated into the
Telegram message of lines 201-209. -/
structure Alert where
  chainName : String
  blockNum : Nat
  fromName : String
  fromAddr : String
  toName : String
  toAddr : Option String
  value : Nat
  txHash : List Char
deriving DecidableEq

/-- The name lookup of lines 197-198: `names[i]` for a tracked party
(raising IndexError — `Except.error` — when `i` is out of range of the
name list), or the fallback for an untracked party. -/
def resolveName (ns : List String) (idx : Option Nat) (fallback : String) :
    Except Unit String :=
  match idx with
  | none => Except.ok fallback
  | some i =>
    match ns.get? i with
    | some n => Except.ok n
    | none => Except.error ()

/-- The `from_index` of line 194: the first index of the sender in the
tracked list when present (`list.index`), else the `-1` sentinel
(`none`). -/
def fromIndex (ws : List String) (tx : Tx) : Option Nat :=
  if memAddr ws tx.sender then some (ws.findIdx (fun x => x == tx.sender))
  else none

/-- The `to_index` of line 195: the first index of the recipient when
present and tracked, else the `-1` sentinel (`none`). -/
def toIndex (ws : List String) (tx : Tx) : Option Nat :=
  match tx.toAddr with
  | some t => if memAddr ws t then some (ws.findIdx (fun x => x == t)) else none
  | none => none

/-- Per-transaction processing of lines 183-212: match, validate,
resolve display names (`list.index` is the first matching index), and
build the alert.  `Except.ok none` means skipped or filtered. -/
def processTx (rpc : ChainRpc) (cn : String) (ws ns : List String)
    (blockNum : Nat) (tx : Tx) : Except Unit (Option Alert) :=
  if matchesTx ws tx then
    if is_valid_transaction rpc tx = false then Except.ok none
    else
      match resolveName ns (fromIndex ws tx) tx.sender with
      | Except.error e => Except.error e
      | Except.ok fromName =>
        match resolveName ns (toIndex ws tx) (tx.toAddr.getD "Contract Creation") with
        | Except.error e => Except.error e
        | Except.ok toName =>
          Except.ok (some { chainName := cn, blockNum := blockNum,
                            fromName := fromName, fromAddr := tx.sender,
                            toName := toName, toAddr := tx.toAddr,
                            value := tx.value, txHash := tx.hash.getD [] })
  else Except.ok none

/-- Process the transactions of one block in order; the `Bool` is true
when an exception aborted the loop, and the alerts are those dispatched
before the abort. -/
def processBlockTxs (rpc : ChainRpc) (cn : String) (ws ns : List String)
    (blockNum : Nat) : List Tx → List Alert × Bool
  | [] => ([], false)
  | tx :: rest =>
    match processTx rpc cn ws ns blockNum tx with
    | Except.error _ => ([], true)
    | Except.ok none => processBlockTxs rpc cn ws ns blockNum rest
    | Except.ok (some a) =>
      let r := processBlockTxs rpc cn ws ns blockNum rest
      (a :: r.1, r.2)

/-- Scan a list of block numbers in order (the loop of lines 180-212);
a `get_block` exception or a per-transaction exception aborts the rest. -/
def scanBlocks (rpc : ChainRpc) (cn : String) (ws ns : List String) :
    List Nat → List Alert × Bool
  | [] => ([], false)
  | b :: bs =>
    match rpc.getBlock b with
    | Except.error _ => ([], true)
    | Except.ok blk =>
      let r := processBlockTxs rpc cn ws ns b blk.transactions
      if r.2 then r
      else
        let r2 := scanBlocks rpc cn ws ns bs
        (r.1 ++ r2.1, r2.2)

/-- `range(last_blocks[chain] + 1, current_block + 1)`. -/
def blockRange (cursor current : Nat) : List Nat :=
  List.range' (cursor + 1) (current - cursor)

/-- Result of scanning one chain: the value `last_blocks[chain]` is left
at, the alerts dispatched, and whether an exception escaped. -/
structure ScanOutcome where
  newCursor : Nat
  alerts : List Alert
  errored : Bool
deriving DecidableEq

/-- One chain's portion of `check_wallet_transactions` (lines 175-218):
read the head, scan `(cursor, head]`, and set the cursor to the head
only if no exception occurred (the assignment of line 218 is after the
block loop, so an exception leaves the cursor untouched). -/
def scanChain (rpc : ChainRpc) (cn : String) (ws ns : List String)
    (cursor : Nat) : ScanOutcome :=
  match rpc.blockNumber with
  | Except.error _ => { newCursor := cursor, alerts := [], errored := true }
  | Except.ok current =>
    let r := scanBlocks rpc cn ws ns (blockRange cursor current)
    if r.2 then { newCursor := cursor, alerts := r.1, errored := true }
    else { newCursor := current, alerts := r.1, errored := false }

/-- The mutable state of a `WalletTracker`: `self.wallets`,
`self.wallet_names` and `self.last_blocks`. -/
structure TrackerState where
  wallets : List (String × List String)
  walletNames : List (String × List String)
  lastBlocks : List (String × Nat)
deriving DecidableEq

/-- `self.wallets[chain]`, with absence read as empty (the guard of
line 172 treats both alike). -/
def walletsFor (st : TrackerState) (chain : String) : List String :=
  (lookupEntry st.wallets chain).getD []

/-- `self.wallet_names[chain]` (set together with `self.wallets`). -/
def namesFor (st : TrackerState) (chain : String) : List String :=
  (lookupEntry st.walletNames chain).getD []

/-- `self.last_blocks[chain]` (populated for every connection at
construction, lines 104-105). -/
def lastBlockFor (st : TrackerState) (chain : String) : Nat :=
  (lookupEntry st.lastBlocks chain).getD 0

/-- Iteration order of `self.w3_connections.items()`: every configured
chain, in insertion order, regardless of tracked wallets. -/
def connectionOrder : List String := ["ethereum", "base"]

/-- `check_wallet_transactions` over a chain list: skip untracked
chains; scan each tracked chain; on the first exception the whole
method aborts (no `try` inside the loop), leaving the remaining chains
unscanned, with the `Bool` flagging the escaped exception. -/
def check_wallet_transactions (rpcs : String → ChainRpc) :
    List String → TrackerState → TrackerState × List Alert × Bool
  | [], st => (st, [], false)
  | chain :: rest, st =>
    if (walletsFor st chain).isEmpty then
      check_wallet_transactions rpcs rest st
    else
      let out := scanChain (rpcs chain) (chainDisplayName chain)
        (walletsFor st chain) (namesFor st chain) (lastBlockFor st chain)
      if out.errored then (st, out.alerts, true)
      else
        let st2 : TrackerState :=
          { st with lastBlocks := setEntry st.lastBlocks chain out.newCursor }
        let r := check_wallet_transactions rpcs rest st2
        (r.1, out.alerts ++ r.2.1, r.2.2)

/-- One tick of `start_tracking` (lines 228-234): run the scan over all
connections and swallow any escaped exception (the loop's
`try/except`), so the loop itself never crashes. -/
def trackTick (rpcs : String → ChainRpc) (st : TrackerState) :
    TrackerState × List Alert :=
  let r := check_wallet_transactions rpcs connectionOrder st
  (r.1, r.2.1)

/-- A structurally valid 66-character transaction hash. -/
def hashC : List Char := '0' :: 'x' :: List.replicate 64 'a'

/-- An empty block. -/
def blkEmpty : Block := { transactions := [] }

/-- A chain whose head has regressed below the cursor (node resync):
head 3, with the cursor about to be 5. -/
def rpcHead3 : ChainRpc :=
  { blockNumber := Except.ok 3, getBlock := fun _ => Except.error (),
    getReceipt := fun _ => ReceiptResult.fetchError }

/-- RPC environment where every chain reports head 3. -/
def rpcsC1 : String → ChainRpc := fun _ => rpcHead3

/-- State for the head-regression run: ethereum tracked, cursor 5. -/
def stC1 : TrackerState :=
  { wallets := [("ethereum", ["0xE"])],
    walletNames := [("ethereum", ["E"])],
    lastBlocks := [("ethereum", 5), ("base", 0)] }

/-- A valid contract-creation transaction from the tracked base wallet. -/
def txC2 : Tx := { hash := some hashC, sender := "0xW", toAddr := none, value := 5 }

/-- Failing ethereum chain: head 10 but every block fetch raises. -/
def ethRpcC2 : ChainRpc :=
  { blockNumber := Except.ok 10, getBlock := fun _ => Except.error (),
    getReceipt := fun _ => ReceiptResult.fetchError }

/-- Healthy base chain: head 4, block 4 holds `txC2`, receipts succeed. -/
def baseRpcC2 : ChainRpc :=
  { blockNumber := Except.ok 4,
    getBlock := fun b => if b == 4 then Except.ok { transactions := [txC2] }
                         else Except.error (),
    getReceipt := fun _ => ReceiptResult.found 1 }

/-- RPC environment of the two-chain tick: ethereum failing, base healthy. -/
def rpcsC2 : String → ChainRpc :=
  fun c => if c = "base" then baseRpcC2 else ethRpcC2

/-- State for the two-chain tick: cursors ethereum 5, base 3. -/
def stC2 : TrackerState :=
  { wallets := [("ethereum", ["0xE"]), ("base", ["0xW"])],
    walletNames := [("ethereum", ["E"]), ("base", ["W"])],
    lastBlocks := [("ethereum", 5), ("base", 3)] }

/-- The alert the healthy base chain produces when scanned. -/
def alertC2 : Alert :=
  { chainName := "Base", blockNum := 4, fromName := "W", fromAddr := "0xW",
    toName := "Contract Creation", toAddr := none, value := 5, txHash := hashC }

/-- A valid transaction from tracked address `0xB`. -/
def txC3 : Tx := { hash := some hashC, sender := "0xB", toAddr := none, value := 1 }

/-- Chain for the label-gap scan: head 6, block 6 fetches fine and holds
`txC3`, receipts succeed. -/
def rpcC3 : ChainRpc :=
  { blockNumber := Except.ok 6,
    getBlock := fun b => if b == 6 then Except.ok { transactions := [txC3] }
                         else Except.error (),
    getReceipt := fun _ => ReceiptResult.found 1 }

/-- Healthy chain with head 7 and empty blocks. -/
def rpcC3ok : ChainRpc :=
  { blockNumber := Except.ok 7, getBlock := fun _ => Except.ok blkEmpty,
    getReceipt := fun _ => ReceiptResult.fetchError }

/-- Chain with head 7 whose block fetches all raise. -/
def rpcC3err : ChainRpc :=
  { blockNumber := Except.ok 7, getBlock := fun _ => Except.error (),
    getReceipt := fun _ => ReceiptResult.fetchError }

/-- A matched transaction with a valid hash, from tracked `0xS`. -/
def txC4 : Tx := { hash := some hashC, sender := "0xS", toAddr := none, value := 2 }

/-- Chain whose receipt lookup reports failure status 0. -/
def rpcRej : ChainRpc :=
  { blockNumber := Except.ok 0, getBlock := fun _ => Except.error (),
    getReceipt := fun _ => ReceiptResult.found 0 }

/-- Chain whose receipt lookup itself raises. -/
def rpcAcc : ChainRpc :=
  { blockNumber := Except.ok 0, getBlock := fun _ => Except.error (),
    getReceipt := fun _ => ReceiptResult.fetchError }

/-- A valid transaction from tracked-but-unlabeled address `0xA`. -/
def txC5 : Tx := { hash := some hashC, sender := "0xA", toAddr := none, value := 3 }

/-- Chain for the missing-label scan: head 8, block 8 holds `txC5`. -/
def rpcC5 : ChainRpc :=
  { blockNumber := Except.ok 8,
    getBlock := fun b => if b == 8 then Except.ok { transactions := [txC5] }
                         else Except.error (),
    getReceipt := fun _ => ReceiptResult.found 1 }

/-- A valid self-transfer: sender and recipient are both `0xS`. -/
def txC7 : Tx := { hash := some hashC, sender := "0xS", toAddr := some "0xS", value := 4 }

/-- Chain whose receipts always report success. -/
def rpcC7 : ChainRpc :=
  { blockNumber := Except.ok 0, getBlock := fun _ => Except.error (),
    getReceipt := fun _ => ReceiptResult.found 1 }

/-- Wallets argument with the same address listed twice. -/
def wsDup : List (String × List String) := [("ethereum", [addrUpperA, addrUpperA])]

/-! ## Character-level facts about lowercasing and checksum casing -/

lemma lowerhex_stable : ∀ c ∈ lowerHexDigits,
    charLower c = c ∧ charLower (hexUpper c) = c ∧ isHexDigitChar c = true := by
  decide

lemma charLower_hex_mem (c : Char) (h : isHexDigitChar (charLower c) = true) :
    charLower c ∈ lowerHexDigits := by
  unfold charLower at h ⊢
  cases hf : upperLowerPairs.find? (fun p => p.1 == c) with
  | some p =>
    simp only [hf] at h ⊢
    have hp : p ∈ upperLowerPairs := List.mem_of_find?_eq_some hf
    have key : ∀ q ∈ upperLowerPairs, isHexDigitChar q.2 = true → q.2 ∈ lowerHexDigits := by
      decide
    exact key p hp h
  | none =>
    simp only [hf] at h ⊢
    have hc : c ∈ hexDigits := by
      obtain ⟨d, hd, hdc⟩ := List.any_eq_true.mp h
      rw [beq_iff_eq] at hdc
      rw [← hdc]
      exact hd
    have key : ∀ d ∈ hexDigits,
        upperLowerPairs.find? (fun p => p.1 == d) = none → d ∈ lowerHexDigits := by
      decide
    exact key c hc hf

lemma remove0x_mem {c : Char} {l : List Char} (h : c ∈ remove0x l) : c ∈ l := by
  unfold remove0x at h
  split at h
  · exact List.mem_cons_of_mem _ (List.mem_cons_of_mem _ h)
  · exact h

lemma map_charLower_id (t : List Char) (h : ∀ c ∈ t, c ∈ lowerHexDigits) :
    t.map charLower = t := by
  induction t with
  | nil => rfl
  | cons c cs ih =>
    rw [List.map_cons, (lowerhex_stable c (h c (List.mem_cons_self c cs))).1,
      ih (fun d hd => h d (List.mem_cons_of_mem c hd))]

lemma applyCase_map_charLower (bits : Nat → Bool) :
    ∀ (t : List Char) (i : Nat), (∀ c ∈ t, c ∈ lowerHexDigits) →
      (applyCase bits i t).map charLower = t := by
  intro t
  induction t with
  | nil => intro i _; rfl
  | cons c cs ih =>
    intro i h
    have hc := lowerhex_stable c (h c (List.mem_cons_self c cs))
    have htail := ih (i + 1) (fun d hd => h d (List.mem_cons_of_mem c hd))
    cases hb : bits i with
    | true => simp [applyCase, hb, hc.2.1, htail]
    | false => simp [applyCase, hb, hc.1, htail]

lemma body_mem_lower {x : String} {t : List Char}
    (ht : t = remove0x ((x.data.map charLower).map charLower))
    (hall : ∀ c ∈ t, isHexDigitChar c = true) :
    ∀ c ∈ t, c ∈ lowerHexDigits := by
  intro c hc
  have hmem : c ∈ (x.data.map charLower).map charLower := remove0x_mem (ht ▸ hc)
  obtain ⟨c0, _, hc0⟩ := List.mem_map.mp hmem
  rw [← hc0]
  exact charLower_hex_mem c0 (by rw [hc0]; exact hall c hc)

/-- C9: address normalization — lowercasing followed by EIP-55
checksum casing, exactly as applied at construction — is idempotent:
whenever `normalizeAddress` succeeds on `x` with result `r`, applying it
to `r` succeeds and returns `r` again. -/
theorem normalizeAddress_idempotent (hb : List Char → Nat → Bool) (x r : String)
    (h : normalizeAddress hb x = Except.ok r) :
    normalizeAddress hb r = Except.ok r := by
  unfold normalizeAddress at h
  cases htc : to_checksum_address hb (x.data.map charLower) with
  | error e => rw [htc] at h; exact absurd h (by simp)
  | ok l =>
    rw [htc] at h
    simp only [Except.ok.injEq] at h
    unfold to_checksum_address at htc
    split at htc
    case isFalse => exact absurd htc (by simp)
    case isTrue hv =>
      simp only [Except.ok.injEq] at htc
      have hvparts := hv
      unfold isValidAddressChars at hvparts
      rw [Bool.and_eq_true] at hvparts
      have hlen : (remove0x ((x.data.map charLower).map charLower)).length = 40 :=
        Nat.beq_eq_true_eq _ _ ▸ hvparts.1
      have hall : ∀ c ∈ remove0x ((x.data.map charLower).map charLower),
          isHexDigitChar c = true := List.all_eq_true.mp hvparts.2
      have hlow : ∀ c ∈ remove0x ((x.data.map charLower).map charLower),
          c ∈ lowerHexDigits := body_mem_lower rfl hall
      have hrdata : r.data = l := by rw [← h]
      have hmap1 : r.data.map charLower =
          '0' :: 'x' :: remove0x ((x.data.map charLower).map charLower) := by
        rw [hrdata, ← htc]
        unfold checksumChars
        rw [List.map_cons, List.map_cons,
          (by decide : charLower '0' = '0'), (by decide : charLower 'x' = 'x'),
          applyCase_map_charLower _ _ _ hlow]
      have hmap2 : (('0' : Char) :: 'x' ::
            remove0x ((x.data.map charLower).map charLower)).map charLower =
          '0' :: 'x' :: remove0x ((x.data.map charLower).map charLower) := by
        rw [List.map_cons, List.map_cons,
          (by decide : charLower '0' = '0'), (by decide : charLower 'x' = 'x'),
          map_charLower_id _ hlow]
      have hv2 : isValidAddressChars (('0' : Char) :: 'x' ::
          remove0x ((x.data.map charLower).map charLower)) = true := by
        unfold isValidAddressChars
        rw [Bool.and_eq_true]
        exact ⟨hvparts.1, hvparts.2⟩
      have key : to_checksum_address hb (r.data.map charLower) = Except.ok l := by
        rw [hmap1]
        unfold to_checksum_address
        rw [hmap2, if_pos hv2, ← htc]
        rfl
      unfold normalizeAddress
      rw [key]
      show Except.ok (String.mk l) = Except.ok r
      rw [h]

/-- Witness: idempotence evaluated on a concrete uppercase address. -/
theorem normalizeAddress_idempotent_witness :
    normalizeAddress hbZ addrUpperA = Except.ok addrLowerA ∧
    normalizeAddress hbZ addrLowerA = Except.ok addrLowerA :=
  ⟨by decide, normalizeAddress_idempotent hbZ addrUpperA addrLowerA (by decide)⟩

/-! ## Constructor lemmas -/

lemma mapAddresses_length (hb : List Char → Nat → Bool) :
    ∀ (l : List String) (r : List String), mapAddresses hb l = Except.ok r →
      r.length = l.length := by
  intro l
  induction l with
  | nil => intro r h; simp only [mapAddresses, Except.ok.injEq] at h; rw [← h]
  | cons a rest ih =>
    intro r h
    unfold mapAddresses at h
    cases hn : normalizeAddress hb a with
    | error e => rw [hn] at h; exact absurd h (by simp)
    | ok c =>
      rw [hn] at h
      cases hm : mapAddresses hb rest with
      | error e => rw [hm] at h; exact absurd h (by simp)
      | ok cs =>
        rw [hm] at h
        simp only [Except.ok.injEq] at h
        rw [← h, List.length_cons, List.length_cons, ih cs hm]

lemma mapAddresses_error_of_mem (hb : List Char → Nat → Bool) :
    ∀ (l : List String) (a : String), a ∈ l →
      normalizeAddress hb a = Except.error () → mapAddresses hb l = Except.error () := by
  intro l
  induction l with
  | nil => intro a ha; exact absurd ha (List.not_mem_nil a)
  | cons b rest ih =>
    intro a ha hbad
    unfold mapAddresses
    rcases List.mem_cons.mp ha with rfl | htail
    · rw [hbad]
    · cases hn : normalizeAddress hb b with
      | error e => cases e; rfl
      | ok c => rw [ih a htail hbad]

lemma setEntry_mem {α : Type} :
    ∀ (m : List (String × α)) (k : String) (v : α) (p : String × α),
      p ∈ setEntry m k v → p = (k, v) ∨ p ∈ m := by
  intro m k v
  induction m with
  | nil => intro p hp; left; simpa [setEntry] using hp
  | cons q rest ih =>
    intro p hp
    obtain ⟨k1, v1⟩ := q
    unfold setEntry at hp
    by_cases hk : k1 = k
    · rw [if_pos hk] at hp
      rcases List.mem_cons.mp hp with rfl | htail
      · exact Or.inl rfl
      · exact Or.inr (List.mem_cons_of_mem _ htail)
    · rw [if_neg hk] at hp
      rcases List.mem_cons.mp hp with rfl | htail
      · exact Or.inr (List.mem_cons_self _ _)
      · rcases ih p htail with h1 | h2
        · exact Or.inl h1
        · exact Or.inr (List.mem_cons_of_mem _ h2)

lemma supported_cases {s : String} (h : supportedChains.contains s = true) :
    s = "ethereum" ∨ s = "base" := by
  have := List.mem_of_elem_eq_true h
  simpa [supportedChains] using this

lemma buildWalletsAux_keys (hb : List Char → Nat → Bool)
    (nsIn : List (String × List String)) :
    ∀ (ws accW accN : List (String × List String))
      (m : List (String × List String) × List (String × List String)),
      buildWalletsAux hb nsIn ws accW accN = Except.ok m →
      (∀ p ∈ accW, p.1 = "ethereum" ∨ p.1 = "base") →
      ∀ p ∈ m.1, p.1 = "ethereum" ∨ p.1 = "base" := by
  intro ws
  induction ws with
  | nil =>
    intro accW accN m h hacc
    simp only [buildWalletsAux, Except.ok.injEq] at h
    rw [← h]
    exact hacc
  | cons e rest ih =>
    intro accW accN m h hacc
    obtain ⟨chain, addrs⟩ := e
    unfold buildWalletsAux at h
    by_cases hc : supportedChains.contains (strLower chain) = true
    · rw [if_pos hc] at h
      cases hma : mapAddresses hb addrs with
      | error er => rw [hma] at h; exact absurd h (by simp)
      | ok checked =>
        rw [hma] at h
        refine ih _ _ m h ?_
        intro p hp
        rcases setEntry_mem _ _ _ p hp with rfl | hmem
        · exact supported_cases hc
        · exact hacc p hmem
    · rw [if_neg hc] at h
      exact ih _ _ m h hacc

/-- C10: construction tracks addresses only for the hardcoded chains
`ethereum` and `base`, compared case-insensitively — every stored key is
one of the two, and an entry with any other chain key is dropped,
contributing no tracked addresses. -/
theorem constructor_supported_chains_only (hb : List Char → Nat → Bool) :
    (∀ (ws ns : List (String × List String))
       (m : List (String × List String) × List (String × List String)),
       buildWallets hb ws ns = Except.ok m →
       ∀ p ∈ m.1, p.1 = "ethereum" ∨ p.1 = "base") ∧
    (∀ (chain : String) (addrs : List String)
       (rest ns : List (String × List String)),
       supportedChains.contains (strLower chain) = false →
       buildWallets hb ((chain, addrs) :: rest) ns = buildWallets hb rest ns) := by
  constructor
  · intro ws ns m h
    exact buildWalletsAux_keys hb ns ws [] [] m h (by intro p hp; cases hp)
  · intro chain addrs rest ns hub
    show buildWalletsAux hb ns ((chain, addrs) :: rest) [] [] =
      buildWalletsAux hb ns rest [] []
    simp only [buildWalletsAux]
    rw [if_neg (by rw [hub]; exact Bool.false_ne_true)]

/-- Witness: an unsupported chain entry is dropped, and a supported
stored key is one of the two hardcoded chains. -/
theorem constructor_supported_chains_only_witness :
    (buildWallets hbZ [("solana", ["abc"])] [] = buildWallets hbZ [] []) ∧
    ("ethereum" = "ethereum" ∨ "ethereum" = "base") :=
  ⟨(constructor_supported_chains_only hbZ).2 "solana" ["abc"] [] [] (by decide),
   (constructor_supported_chains_only hbZ).1 [("ethereum", [addrLowerA])] []
     ([("ethereum", [addrLowerA])], [("ethereum", [])]) (by decide)
     ("ethereum", [addrLowerA]) (by decide)⟩

/-- C6 counterexample: a malformed address entry does not leave a
tracker built from the remaining entries — construction itself raises
(`to_checksum_address` propagates out of `__init__`). -/
theorem constructor_invalid_address_cex :
    buildWallets hbZ [("ethereum", ["zz"])] [] = Except.error () := by
  decide

/-- C6 amended: a malformed address in any supported chain's list is
fatal for the whole construction — the `InvalidAddress` exception
propagates out of the wallet-preparation loop, rather than the entry
being dropped. -/
theorem constructor_fatal_on_invalid_address (hb : List Char → Nat → Bool)
    (ws ns : List (String × List String)) (chain : String)
    (addrs : List String) (a : String)
    (hmem : (chain, addrs) ∈ ws)
    (hsup : supportedChains.contains (strLower chain) = true)
    (ha : a ∈ addrs)
    (hbad : normalizeAddress hb a = Except.error ()) :
    buildWallets hb ws ns = Except.error () := by
  have haux : ∀ (l accW accN : List (String × List String)),
      (chain, addrs) ∈ l →
      buildWalletsAux hb ns l accW accN = Except.error () := by
    intro l
    induction l with
    | nil => intro accW accN hm; exact absurd hm (List.not_mem_nil _)
    | cons e rest ih =>
      intro accW accN hm
      obtain ⟨c, as⟩ := e
      unfold buildWalletsAux
      rcases List.mem_cons.mp hm with he | htail
      · obtain ⟨rfl, rfl⟩ := Prod.mk.injEq .. ▸ he
        rw [if_pos hsup, mapAddresses_error_of_mem hb addrs a ha hbad]
      · by_cases hc : supportedChains.contains (strLower c) = true
        · rw [if_pos hc]
          cases hma : mapAddresses hb as with
          | error er => cases er; rfl
          | ok checked => exact ih _ _ htail
        · rw [if_neg hc]
          exact ih _ _ htail
  exact haux ws [] [] hmem

/-- Witness: the fatal-construction theorem applied to a concrete
configuration holding one malformed and one valid address. -/
theorem constructor_fatal_on_invalid_address_witness :
    buildWallets hbZ [("ethereum", ["zz", addrLowerA])] [] = Except.error () :=
  constructor_fatal_on_invalid_address hbZ [("ethereum", ["zz", addrLowerA])] []
    "ethereum" ["zz", addrLowerA] "zz" (by decide) (by decide) (by decide) (by decide)

/-- C8 counterexample: a duplicated configured address is stored twice —
the per-chain collection is a Python list, not a set, so duplicates do
not collapse. -/
theorem wallets_duplicates_kept_cex :
    buildWallets hbZ wsDup [] =
      Except.ok ([("ethereum", [addrLowerA, addrLowerA])], [("ethereum", [])]) ∧
    ¬ ([addrLowerA, addrLowerA] : List String).Nodup := by
  exact ⟨by decide, by decide⟩

/-- C8 amended: the tracked-address structure for a chain is the list of
checksummed input addresses in input order — its length equals the input
list's length, so duplicates are preserved, not collapsed. -/
theorem wallets_stored_as_list (hb : List Char → Nat → Bool) (chain : String)
    (addrs : List String) (ns : List (String × List String))
    (m : List (String × List String) × List (String × List String))
    (hsup : supportedChains.contains (strLower chain) = true)
    (hok : buildWallets hb [(chain, addrs)] ns = Except.ok m) :
    ∃ l, lookupEntry m.1 (strLower chain) = some l ∧ l.length = addrs.length := by
  unfold buildWallets buildWalletsAux at hok
  rw [if_pos hsup] at hok
  cases hma : mapAddresses hb addrs with
  | error er => rw [hma] at hok; exact absurd hok (by simp)
  | ok checked =>
    rw [hma] at hok
    simp only [buildWalletsAux, Except.ok.injEq] at hok
    refine ⟨checked, ?_, mapAddresses_length hb addrs checked hma⟩
    rw [← hok]
    simp [setEntry, lookupEntry]

/-- Witness: the list-storage theorem applied to a configuration with a
duplicated address — the stored list has length 2. -/
theorem wallets_stored_as_list_witness :
    ∃ l, lookupEntry
        ([("ethereum", [addrLowerA, addrLowerA])] : List (String × List String))
        (strLower "ethereum") = some l ∧
      l.length = ([addrUpperA, addrUpperA] : List String).length :=
  wallets_stored_as_list hbZ "ethereum" [addrUpperA, addrUpperA] []
    ([("ethereum", [addrLowerA, addrLowerA])], [("ethereum", [])])
    (by decide) (by decide)

/-! ## Scan-level lemmas -/

lemma findIdx_lt_of_memAddr (ws : List String) (a : String)
    (h : memAddr ws a = true) :
    ws.findIdx (fun x => x == a) < ws.length := by
  induction ws with
  | nil => simp [memAddr] at h
  | cons b bs ih =>
    rw [List.findIdx_cons]
    cases hba : (b == a) with
    | true => simp [hba]
    | false =>
      have htl : memAddr bs a = true := by
        have := h
        simp only [memAddr, List.any_cons, hba, Bool.false_or] at this
        exact this
      simp only [hba, cond_false, List.length_cons]
      exact Nat.succ_lt_succ (ih htl)

lemma resolveName_ok (ns : List String) (idx : Option Nat) (fb : String)
    (h : ∀ i, idx = some i → i < ns.length) :
    ∃ n, resolveName ns idx fb = Except.ok n := by
  cases idx with
  | none => exact ⟨fb, rfl⟩
  | some i =>
    have hi := h i rfl
    exact ⟨ns.get ⟨i, hi⟩, by simp [resolveName, List.getElem?_eq_getElem hi]⟩

lemma fromIndex_lt (ws ns : List String) (tx : Tx)
    (hc : ws.length ≤ ns.length) :
    ∀ i, fromIndex ws tx = some i → i < ns.length := by
  intro i h
  unfold fromIndex at h
  by_cases hm : memAddr ws tx.sender = true
  · rw [if_pos hm, Option.some.injEq] at h
    rw [← h]
    exact Nat.lt_of_lt_of_le (findIdx_lt_of_memAddr ws tx.sender hm) hc
  · rw [if_neg hm] at h
    exact absurd h (by simp)

lemma toIndex_lt (ws ns : List String) (tx : Tx)
    (hc : ws.length ≤ ns.length) :
    ∀ i, toIndex ws tx = some i → i < ns.length := by
  intro i h
  unfold toIndex at h
  cases hto : tx.toAddr with
  | none => simp only [hto] at h; exact absurd h (by simp)
  | some t =>
    simp only [hto] at h
    by_cases hm : memAddr ws t = true
    · rw [if_pos hm, Option.some.injEq] at h
      rw [← h]
      exact Nat.lt_of_lt_of_le (findIdx_lt_of_memAddr ws t hm) hc
    · rw [if_neg hm] at h
      exact absurd h (by simp)

lemma processTx_skip (rpc : ChainRpc) (cn : String) (ws ns : List String)
    (b : Nat) (tx : Tx)
    (h : matchesTx ws tx = false ∨ is_valid_transaction rpc tx = false) :
    processTx rpc cn ws ns b tx = Except.ok none := by
  unfold processTx
  rcases h with h | h
  · rw [if_neg (by rw [h]; exact Bool.false_ne_true)]
  · by_cases hm : matchesTx ws tx = true
    · rw [if_pos hm, if_pos h]
    · rw [if_neg hm]

lemma processTx_matched_valid (rpc : ChainRpc) (cn : String)
    (ws ns : List String) (b : Nat) (tx : Tx)
    (hm : matchesTx ws tx = true) (hv : is_valid_transaction rpc tx = true)
    (hc : ws.length ≤ ns.length) :
    ∃ a, processTx rpc cn ws ns b tx = Except.ok (some a) := by
  unfold processTx
  rw [if_pos hm, if_neg (by rw [hv]; decide)]
  obtain ⟨fn, hfn⟩ :=
    resolveName_ok ns (fromIndex ws tx) tx.sender (fromIndex_lt ws ns tx hc)
  obtain ⟨tn, htn⟩ :=
    resolveName_ok ns (toIndex ws tx) (tx.toAddr.getD "Contract Creation")
      (toIndex_lt ws ns tx hc)
  rw [hfn, htn]
  exact ⟨_, rfl⟩

lemma processTx_isOk (rpc : ChainRpc) (cn : String) (ws ns : List String)
    (b : Nat) (tx : Tx) (hc : ws.length ≤ ns.length) :
    ∃ o, processTx rpc cn ws ns b tx = Except.ok o := by
  by_cases hm : matchesTx ws tx = true
  · by_cases hv : is_valid_transaction rpc tx = true
    · obtain ⟨a, ha⟩ := processTx_matched_valid rpc cn ws ns b tx hm hv hc
      exact ⟨some a, ha⟩
    · exact ⟨none, processTx_skip rpc cn ws ns b tx
        (Or.inr (by revert hv; cases is_valid_transaction rpc tx <;> simp))⟩
  · exact ⟨none, processTx_skip rpc cn ws ns b tx
      (Or.inl (by revert hm; cases matchesTx ws tx <;> simp))⟩

lemma processBlockTxs_no_error (rpc : ChainRpc) (cn : String)
    (ws ns : List String) (b : Nat) (hc : ws.length ≤ ns.length) :
    ∀ txs, (processBlockTxs rpc cn ws ns b txs).2 = false := by
  intro txs
  induction txs with
  | nil => rfl
  | cons tx rest ih =>
    unfold processBlockTxs
    obtain ⟨o, ho⟩ := processTx_isOk rpc cn ws ns b tx hc
    rw [ho]
    cases o with
    | none => exact ih
    | some a => simpa using ih

lemma scanBlocks_no_error (rpc : ChainRpc) (cn : String) (ws ns : List String)
    (hc : ws.length ≤ ns.length) :
    ∀ bs, (∀ b ∈ bs, ∃ blk, rpc.getBlock b = Except.ok blk) →
      (scanBlocks rpc cn ws ns bs).2 = false := by
  intro bs
  induction bs with
  | nil => intro _; rfl
  | cons b rest ih =>
    intro h
    obtain ⟨blk, hblk⟩ := h b (List.mem_cons_self b rest)
    unfold scanBlocks
    rw [hblk]
    simp only [processBlockTxs_no_error rpc cn ws ns b hc blk.transactions,
      Bool.false_eq_true, if_false]
    exact ih (fun x hx => h x (List.mem_cons_of_mem b hx))

/-- C1 counterexample: with ethereum tracked, cursor 5 and head 3
(a regressed head), one run of `check_wallet_transactions` moves the
ethereum cursor from 5 down to 3 — the scan is not a no-op and the
cursor is not monotonically non-decreasing. -/
theorem scan_head_regression_cex :
    (check_wallet_transactions rpcsC1 connectionOrder stC1).1.lastBlocks =
      [("ethereum", 3), ("base", 0)] ∧
    stC1.lastBlocks = [("ethereum", 5), ("base", 0)] :=
  ⟨by decide, by decide⟩

/-- C1 amended: when the head `H` satisfies `H <= cursor`, the scan
fetches no blocks and emits no alerts, but it is not a strict no-op:
line 218 unconditionally sets the cursor to `H`, so the cursor is
unchanged when `H = cursor` and decreases to `H` when `H < cursor`. -/
theorem scan_head_regression (rpc : ChainRpc) (cn : String) (ws ns : List String)
    (cursor H : Nat) (hH : rpc.blockNumber = Except.ok H) (hle : H ≤ cursor) :
    scanChain rpc cn ws ns cursor =
      { newCursor := H, alerts := [], errored := false } := by
  have hr : blockRange cursor H = [] := by
    unfold blockRange
    rw [Nat.sub_eq_zero_of_le hle]
    rfl
  simp [scanChain, hH, hr, scanBlocks]

/-- Witness: the head-regression behaviour on a concrete chain with
head 3 and cursor 5: the cursor becomes 3. -/
theorem scan_head_regression_witness :
    scanChain rpcHead3 "Ethereum" ["0xE"] ["E"] 5 =
      { newCursor := 3, alerts := [], errored := false } :=
  scan_head_regression rpcHead3 "Ethereum" ["0xE"] ["E"] 5 3 rfl (by decide)

/-- C2 counterexample: ethereum fails on `get_block` while base is
healthy and has an alertable transaction, yet the tick ends with the
base cursor still at 3 and no alert at all — scanning base alone would
have advanced its cursor to 4 and produced the alert. -/
theorem tick_abort_on_chain_error_cex :
    check_wallet_transactions rpcsC2 connectionOrder stC2 = (stC2, [], true) ∧
    scanChain baseRpcC2 "Base" ["0xW"] ["W"] 3 =
      { newCursor := 4, alerts := [alertC2], errored := false } :=
  ⟨by decide, by decide⟩

/-- C2 amended: an exception while scanning a chain is caught only at
the tracking-loop level — the tick aborts, so chains later in the
iteration order are not scanned at all that tick (the whole state,
including every cursor, is unchanged), and only the failing chain's
already-dispatched alerts exist. -/
theorem tick_abort_on_chain_error (rpcs : String → ChainRpc) (chain : String)
    (rest : List String) (st : TrackerState)
    (hws : (walletsFor st chain).isEmpty = false)
    (herr : (scanChain (rpcs chain) (chainDisplayName chain) (walletsFor st chain)
      (namesFor st chain) (lastBlockFor st chain)).errored = true) :
    check_wallet_transactions rpcs (chain :: rest) st =
      (st, (scanChain (rpcs chain) (chainDisplayName chain) (walletsFor st chain)
        (namesFor st chain) (lastBlockFor st chain)).alerts, true) := by
  simp only [check_wallet_transactions]
  rw [hws]
  simp [herr]

/-- Witness: the tick-abort theorem applied to the concrete two-chain
environment with ethereum failing first. -/
theorem tick_abort_on_chain_error_witness :
    check_wallet_transactions rpcsC2 ["ethereum", "base"] stC2 =
      (stC2, (scanChain (rpcsC2 "ethereum") (chainDisplayName "ethereum")
        (walletsFor stC2 "ethereum") (namesFor stC2 "ethereum")
        (lastBlockFor stC2 "ethereum")).alerts, true) :=
  tick_abort_on_chain_error rpcsC2 "ethereum" ["base"] stC2 (by decide) (by decide)

/-- C3 counterexample: head 6, cursor 5, the single block in the range
fetches successfully, yet the cursor does not advance to the head:
the matched transaction's sender has no positional label, the name
lookup raises, and the scan aborts with the cursor unchanged. -/
theorem scan_cursor_advance_cex :
    scanChain rpcC3 "Ethereum" ["0xA", "0xB"] ["a"] 5 =
      { newCursor := 5, alerts := [], errored := true } ∧
    rpcC3.blockNumber = Except.ok 6 ∧
    rpcC3.getBlock 6 = Except.ok { transactions := [txC3] } ∧
    blockRange 5 6 = [6] :=
  ⟨by decide, rfl, by decide, by decide⟩

/-- C3 amended: for a non-empty range `(cursor, H]`, the cursor ends at
`H` when every block fetch succeeds and additionally no per-transaction
exception occurs (guaranteed when the label list covers the address
list); and if the very first block fetch raises, the scan ends with the
cursor unchanged and no alerts, so the range is retried next tick. -/
theorem scan_cursor_advance (rpc : ChainRpc) (cn : String) (ws ns : List String)
    (cursor H : Nat) (hH : rpc.blockNumber = Except.ok H) (hlt : cursor < H) :
    ((∀ b ∈ blockRange cursor H, ∃ blk, rpc.getBlock b = Except.ok blk) →
      ws.length ≤ ns.length →
      (scanChain rpc cn ws ns cursor).newCursor = H ∧
      (scanChain rpc cn ws ns cursor).errored = false) ∧
    (rpc.getBlock (cursor + 1) = Except.error () →
      scanChain rpc cn ws ns cursor =
        { newCursor := cursor, alerts := [], errored := true }) := by
  constructor
  · intro hfetch hc
    have hzero := scanBlocks_no_error rpc cn ws ns hc (blockRange cursor H) hfetch
    constructor <;> simp [scanChain, hH, hzero]
  · intro herrb
    have hrange : blockRange cursor H =
        (cursor + 1) :: List.range' (cursor + 2) (H - cursor - 1) := by
      unfold blockRange
      obtain ⟨k, hk⟩ : ∃ k, H - cursor = k + 1 := ⟨H - cursor - 1, by omega⟩
      rw [hk, List.range'_succ]
      simp
    simp [scanChain, hH, hrange, scanBlocks, herrb]

/-- Witness: cursor 5 advances to head 7 over an error-free empty-block
range, and stays at 5 when the first block fetch raises. -/
theorem scan_cursor_advance_witness :
    ((scanChain rpcC3ok "Ethereum" [] [] 5).newCursor = 7 ∧
     (scanChain rpcC3ok "Ethereum" [] [] 5).errored = false) ∧
    scanChain rpcC3err "Ethereum" [] [] 5 =
      { newCursor := 5, alerts := [], errored := true } :=
  ⟨(scan_cursor_advance rpcC3ok "Ethereum" [] [] 5 7 rfl (by decide)).1
      (fun _ _ => ⟨blkEmpty, rfl⟩) (by decide),
   (scan_cursor_advance rpcC3err "Ethereum" [] [] 5 7 rfl (by decide)).2 rfl⟩

/-- C4: the asymmetric receipt policy — a receipt that is fetched and
reports a non-success status makes the transaction invalid and it is
never turned into an alert; a receipt lookup that raises leaves the
transaction valid, and it still yields an alert when matched (with
labels covering the tracked list). -/
theorem receipt_policy (rpc : ChainRpc) (cn : String) (ws ns : List String)
    (b : Nat) (tx : Tx) (h : List Char)
    (hh : tx.hash = some h) (hlen : h.length = 66) :
    (∀ s, rpc.getReceipt h = ReceiptResult.found s → s ≠ 1 →
      is_valid_transaction rpc tx = false ∧
      processTx rpc cn ws ns b tx = Except.ok none) ∧
    (rpc.getReceipt h = ReceiptResult.fetchError →
      is_valid_transaction rpc tx = true ∧
      (matchesTx ws tx = true → ws.length ≤ ns.length →
        ∃ a, processTx rpc cn ws ns b tx = Except.ok (some a))) := by
  constructor
  · intro s hrr hs
    have hv : is_valid_transaction rpc tx = false := by
      unfold is_valid_transaction
      simp only [hh, hlen]
      rw [if_pos (by decide), hrr]
      show (s == 1) = false
      exact beq_eq_false_iff_ne.mpr hs
    exact ⟨hv, processTx_skip rpc cn ws ns b tx (Or.inr hv)⟩
  · intro hrr
    have hv : is_valid_transaction rpc tx = true := by
      unfold is_valid_transaction
      simp only [hh, hlen]
      rw [if_pos (by decide), hrr]
    exact ⟨hv, fun hm hc => processTx_matched_valid rpc cn ws ns b tx hm hv hc⟩

/-- Witness: the receipt policy on a concrete matched transaction:
status 0 filters it, a raising receipt lookup leaves it alertable. -/
theorem receipt_policy_witness :
    (is_valid_transaction rpcRej txC4 = false ∧
     processTx rpcRej "Ethereum" ["0xS"] ["S"] 1 txC4 = Except.ok none) ∧
    (is_valid_transaction rpcAcc txC4 = true ∧
     ∃ a, processTx rpcAcc "Ethereum" ["0xS"] ["S"] 1 txC4 = Except.ok (some a)) := by
  constructor
  · exact (receipt_policy rpcRej "Ethereum" ["0xS"] ["S"] 1 txC4 hashC rfl
      (by decide)).1 0 rfl (by decide)
  · have h := (receipt_policy rpcAcc "Ethereum" ["0xS"] ["S"] 1 txC4 hashC rfl
      (by decide)).2 rfl
    exact ⟨h.1, h.2 (by decide) (by decide)⟩

/-- C5: at the failing input — a matched, validated transaction whose
tracked sender has no positionally paired label — the scan does not
resolve the name to the raw address: the name lookup raises IndexError,
the scan aborts with no alert and an unadvanced cursor. -/
theorem missing_label_raises :
    scanChain rpcC5 "Ethereum" ["0xA"] [] 7 =
      { newCursor := 7, alerts := [], errored := true } ∧
    processTx rpcC5 "Ethereum" ["0xA"] [] 8 txC5 = Except.error () :=
  ⟨by decide, by decide⟩

/-- C7: a transaction matching on both ends (self-transfer) contributes
exactly one alert to its block's output, not two. -/
theorem self_transfer_single_alert (rpc : ChainRpc) (cn : String)
    (ws ns : List String) (b : Nat) (tx : Tx) (t : String) (txs : List Tx)
    (hfrom : memAddr ws tx.sender = true)
    (hto : tx.toAddr = some t) (htomem : memAddr ws t = true)
    (hv : is_valid_transaction rpc tx = true)
    (hc : ws.length ≤ ns.length) :
    (processBlockTxs rpc cn ws ns b (tx :: txs)).1.length =
      (processBlockTxs rpc cn ws ns b txs).1.length + 1 := by
  have hm : matchesTx ws tx = true := by
    unfold matchesTx
    rw [hfrom]
    simp
  obtain ⟨a, ha⟩ := processTx_matched_valid rpc cn ws ns b tx hm hv hc
  simp only [processBlockTxs]
  rw [ha]
  simp

/-- Witness: a concrete self-transfer produces exactly one alert. -/
theorem self_transfer_single_alert_witness :
    (processBlockTxs rpcC7 "Ethereum" ["0xS"] ["S"] 2 [txC7]).1.length = 1 := by
  have h := self_transfer_single_alert rpcC7 "Ethereum" ["0xS"] ["S"] 2 txC7 "0xS" []
    (by decide) rfl (by decide) (by decide) (by decide)
  simpa [processBlockTxs] using h
